import Mathlib

/-!
Verification development for the `llm-assignment-grader` repository.

The program is embedded shallowly:

* Text is modelled as `List Char`; the subword tokenizer is modelled at the
  character level (one token per character), which preserves the structure of
  the truncation algorithm: `encode` and `decode` are mutually inverse and the
  token count of a text is its length.
* Python `float` values arising in this program are numbers parsed from
  decimal literals in feedback text, or decimal constants such as `1.0`; they
  are modelled exactly as scaled decimals (`Dec`, an integer numerator with a
  power-of-ten exponent).
* `dict`-shaped multimodal content parts are modelled by the inductive
  `ContentPart`; the `str | list` union of user content by `UserContent`.
* The remote LLM is modelled as an oracle mapping the attempt index and the
  (truncated) user content to either a reply or an error message; exceptions
  are carried as their message strings.
-/

set_option maxRecDepth 20000

/-! ## Basic character-list utilities (Python `str` helpers) -/

/-- Python `str.lower()` restricted to the characters this program handles. -/
def lowerList (cs : List Char) : List Char := cs.map Char.toLower

/-- Python `needle in haystack` on strings: substring containment. -/
def containsSub (needle hay : List Char) : Bool :=
  hay.tails.any (fun t => needle.isPrefixOf t)

/-- Python `str.rstrip()`: drop trailing whitespace. -/
def rstripChars (cs : List Char) : List Char :=
  (cs.reverse.dropWhile Char.isWhitespace).reverse

/-- Python `str.strip()`: drop leading and trailing whitespace. -/
def stripChars (cs : List Char) : List Char :=
  rstripChars (cs.dropWhile Char.isWhitespace)

/-- Python `str.splitlines()` for the line separators occurring here
(`\n`, `\r\n`, `\r`); no trailing empty line is produced. -/
def splitLinesAux (cur : List Char) : List Char → List (List Char)
  | [] => if cur.isEmpty then [] else [cur.reverse]
  | '\r' :: '\n' :: rest => cur.reverse :: splitLinesAux [] rest
  | '\n' :: rest => cur.reverse :: splitLinesAux [] rest
  | '\r' :: rest => cur.reverse :: splitLinesAux [] rest
  | c :: rest => splitLinesAux (c :: cur) rest

def splitLines (cs : List Char) : List (List Char) := splitLinesAux [] cs

/-- Powers of ten, as integers (structural, kernel-reducible). -/
def pow10 : Nat → Int
  | 0 => 1
  | n + 1 => 10 * pow10 n

/-- Powers of two (Python `2 ** attempt`). -/
def pow2 : Nat → Nat
  | 0 => 1
  | n + 1 => 2 * pow2 n

/-- Python `max(a, b)` on numbers: returns `b` exactly when `a < b`. -/
def imax (a b : Int) : Int := if a < b then b else a

/-! ## Exact decimals, modelling the Python floats of this program -/

/-- A scaled decimal: the value `num / 10 ^ exp`.  All floats handled by the
guardrail and the analyzer are parsed from decimal literals, so this model is
exact for them. -/
structure Dec where
  num : Int
  exp : Nat
deriving DecidableEq, Repr

def Dec.blt (a b : Dec) : Bool := decide (a.num * pow10 b.exp < b.num * pow10 a.exp)

def Dec.ble (a b : Dec) : Bool := decide (a.num * pow10 b.exp ≤ b.num * pow10 a.exp)

/-- Value equality (Python `==` on floats). -/
def Dec.beq (a b : Dec) : Bool := decide (a.num * pow10 b.exp = b.num * pow10 a.exp)

/-- Python `min(a, b)`: returns `a` when `a <= b`. -/
def Dec.dmin (a b : Dec) : Dec := if Dec.ble a b then a else b

/-- Python `max(a, b)`: returns `b` exactly when `a < b`. -/
def Dec.dmax (a b : Dec) : Dec := if Dec.blt a b then b else a

/-- Python `a - b` on these decimals, exact. -/
def Dec.sub (a b : Dec) : Dec :=
  ⟨a.num * pow10 b.exp - b.num * pow10 a.exp, a.exp + b.exp⟩

/-- Python `abs`. -/
def Dec.dabs (a : Dec) : Dec := ⟨(a.num.natAbs : Int), a.exp⟩

/-- Python `x > 0`. -/
def Dec.isPos (a : Dec) : Bool := decide (0 < a.num)

/-- The float literal `1.0`. -/
def dec1 : Dec := ⟨10, 1⟩

/-- The float literal `2.0`. -/
def dec2 : Dec := ⟨20, 1⟩

/-- The tolerance literal `0.01`. -/
def decTol : Dec := ⟨1, 2⟩

/-- Digit string to natural number (the numeric value of a `\d+` match). -/
def digitsToNat (cs : List Char) : Nat :=
  cs.foldl (fun n c => 10 * n + (c.toNat - 48)) 0

/-- Python `float(...)` applied to a matched decimal literal
(`\d+(\.\d+)?`), exact. -/
def parseDec (cs : List Char) : Dec :=
  let intPart := cs.takeWhile (fun c => c ≠ '.')
  match cs.dropWhile (fun c => c ≠ '.') with
  | _ :: frac => ⟨(digitsToNat (intPart ++ frac) : Int), frac.length⟩
  | [] => ⟨(digitsToNat intPart : Int), 0⟩

/-- Round `n / d` (with `d > 0`) to the nearest integer, ties to even:
the rounding Python's float formatting performs on the exact values here. -/
def roundHalfEvenScaled (n d : Int) : Int :=
  let q := Int.fdiv n d
  let r := n - q * d
  if 2 * r < d then q else if d < 2 * r then q + 1 else if q % 2 = 0 then q else q + 1

def natDigits (n : Nat) : List Char := Nat.toDigits 10 n

/-- Python `f"{x:.1f}"` on the exact decimals of this program. -/
def fmtFixed1 (x : Dec) : List Char :=
  let n := roundHalfEvenScaled (10 * x.num) (pow10 x.exp)
  (if n < 0 then ['-'] else []) ++ natDigits (n.natAbs / 10) ++ ['.'] ++ natDigits (n.natAbs % 10)

/-- Python `f"{x:.0f}"`. -/
def fmtFixed0 (x : Dec) : List Char :=
  let n := roundHalfEvenScaled x.num (pow10 x.exp)
  (if n < 0 then ['-'] else []) ++ natDigits n.natAbs

/-! ## Data model: content parts and user content
(`src/ai_grader/grader/grader.py`) -/

/-- One multimodal content part: a `{"type": "text", "text": ...}` dict or an
image part (`"image_url"` / `"image"`). -/
inductive ContentPart where
  | text (t : List Char)
  | image
deriving DecidableEq, Repr

/-- `str | list[dict]` user content. -/
inductive UserContent where
  | str (t : List Char)
  | parts (ps : List ContentPart)
deriving DecidableEq, Repr

/-- `_ESTIMATE_TOKENS_PER_IMAGE`. -/
def estimateTokensPerImage : Nat := 1000

/-- `_count_text_tokens`: token count of a text (a character count in the
character-level tokenizer model). -/
def count_text_tokens (t : List Char) : Nat := t.length

/-- The cost `_estimate_user_content_tokens` assigns to one part: text parts
with nonempty text by token count, image parts a flat 1000; a text part with
empty text falls through both branches and costs 0 (equal to its length). -/
def estimate_part : ContentPart → Nat
  | .text t => count_text_tokens t
  | .image => estimateTokensPerImage

/-- `_estimate_user_content_tokens`. -/
def estimate_user_content_tokens : UserContent → Nat
  | .str t => count_text_tokens t
  | .parts ps => (ps.map estimate_part).sum

/-- The marker `_truncate_text_to_tokens` appends. -/
def truncationMarker : List Char := "\n\n[Content truncated due to length limits.]".data

/-- The placeholder `_truncate_user_content` emits when nothing fits. -/
def placeholderText : List Char := "[Submission truncated: exceeded token limit.]".data

/-- `_truncate_text_to_tokens` (token-level; tokens are characters in this
model).  Called with a positive budget from `_truncate_user_content`. -/
def truncate_text_to_tokens (t : List Char) (maxTokens : Nat) : List Char :=
  if maxTokens = 0 then []
  else if t.length ≤ maxTokens then t
  else rstripChars (t.take maxTokens) ++ truncationMarker

/-- The per-part cost used inside `_truncate_user_content`'s walk: note that a
text part with empty text is charged like an image (the `part.get("text")`
truthiness test fails), unlike in the estimator. -/
def part_charge : ContentPart → Nat
  | .text t => if t.isEmpty then estimateTokensPerImage else count_text_tokens t
  | .image => estimateTokensPerImage

def placeholderPart : ContentPart := .text placeholderText

/-- The `for part in user_content` walk of `_truncate_user_content`: keep
whole parts while they fit; at the first overflowing part, partially truncate
it when it is nonempty text and budget remains, otherwise stop. -/
def truncate_walk (maxTokens : Nat) : Nat → List ContentPart → List ContentPart
  | _, [] => []
  | used, p :: ps =>
    let pt := part_charge p
    if used + pt ≤ maxTokens then p :: truncate_walk maxTokens (used + pt) ps
    else
      match p with
      | .text t =>
        if ¬t.isEmpty ∧ used < maxTokens then
          [ContentPart.text (truncate_text_to_tokens t (maxTokens - used))]
        else []
      | .image => []

/-- `_truncate_user_content`. -/
def truncate_user_content : UserContent → Int → UserContent
  | .str t, m =>
    if m ≤ 0 then .str placeholderText
    else .str (truncate_text_to_tokens t m.toNat)
  | .parts ps, m =>
    if m ≤ 0 then .parts [placeholderPart]
    else
      let r := truncate_walk m.toNat 0 ps
      .parts (if r.isEmpty then [placeholderPart] else r)

/-! ## Lemmas about truncation -/

theorem lenDropWhileLe (p : Char → Bool) : ∀ l : List Char, (l.dropWhile p).length ≤ l.length := by
  intro l
  induction l with
  | nil => simp [List.dropWhile]
  | cons c cs ih =>
    by_cases h : p c
    · simp [List.dropWhile, h]; omega
    · simp [List.dropWhile, h]

theorem lenRstripLe (t : List Char) : (rstripChars t).length ≤ t.length := by
  unfold rstripChars
  rw [List.length_reverse]
  calc (t.reverse.dropWhile Char.isWhitespace).length ≤ t.reverse.length :=
        lenDropWhileLe _ _
    _ = t.length := List.length_reverse t

theorem lenTruncTextLe (t : List Char) (m : Nat) :
    (truncate_text_to_tokens t m).length ≤ m + truncationMarker.length := by
  unfold truncate_text_to_tokens
  by_cases h0 : m = 0
  · simp [h0]
  · simp only [h0, if_false]
    by_cases hfit : t.length ≤ m
    · simp [hfit]; omega
    · simp only [hfit, if_false, List.length_append]
      have h1 : (rstripChars (t.take m)).length ≤ (t.take m).length := lenRstripLe _
      have h2 : (t.take m).length ≤ m := by
        rw [List.length_take]; omega
      omega

theorem estimatePartLeCharge (p : ContentPart) : estimate_part p ≤ part_charge p := by
  cases p with
  | text t =>
    by_cases h : t.isEmpty
    · have : t = [] := by simpa [List.isEmpty_iff] using h
      simp [estimate_part, part_charge, h, this, count_text_tokens]
    · simp [estimate_part, part_charge, h]
  | image => simp [estimate_part, part_charge]

theorem truncWalkEstimate (m : Nat) :
    ∀ (ps : List ContentPart) (used : Nat), used ≤ m →
      ((truncate_walk m used ps).map estimate_part).sum ≤ (m - used) + truncationMarker.length := by
  intro ps
  induction ps with
  | nil => intro used _; simp [truncate_walk]
  | cons p ps ih =>
    intro used hu
    unfold truncate_walk
    by_cases hk : used + part_charge p ≤ m
    · simp only [hk, if_true, List.map_cons, List.sum_cons]
      have h1 := ih (used + part_charge p) hk
      have h2 := estimatePartLeCharge p
      omega
    · simp only [hk, if_false]
      cases p with
      | text t =>
        split
        · next t2 heq =>
            injection heq with h
            subst h
            split
            · simp only [List.map_cons, List.map_nil, List.sum_cons, List.sum_nil,
                estimate_part, count_text_tokens]
              have h3 := lenTruncTextLe t (m - used)
              omega
            · exact Nat.zero_le _
        · exact Nat.zero_le _
      | image => exact Nat.zero_le _

/-- Claim C1 fails as stated: truncating `[Text "ab"]` to budget `1` appends
the fixed truncation marker, and the estimated cost of the result is `44 > 1`. -/
theorem c1_counterexample :
    1 < estimate_user_content_tokens
      (truncate_user_content (.parts [ContentPart.text ['a', 'b']]) 1) := by decide

/-- The overhead constant of the amended bound: the larger of the token costs
of the appended truncation marker and of the placeholder text. -/
def truncationOverhead : Nat := max truncationMarker.length placeholderText.length

/-- C1 (amended): for every part sequence `P` and budget `b > 0`,
`estimate(truncate(P, b)) ≤ b + overhead`, where the overhead is the token
cost of the fixed marker/placeholder text the truncator appends; the bound
`b` alone fails whenever a marker or placeholder is appended. -/
theorem c1_truncate_estimate_bound (ps : List ContentPart) (b : Int) (hb : 0 < b) :
    (estimate_user_content_tokens (truncate_user_content (.parts ps) b) : Int)
      ≤ b + truncationOverhead := by
  have hble : ¬b ≤ 0 := by omega
  have h3 : truncationMarker.length ≤ truncationOverhead := le_max_left _ _
  have h5 : placeholderText.length ≤ truncationOverhead := le_max_right _ _
  have h4 : (b.toNat : Int) = b := by omega
  unfold truncate_user_content
  simp only [hble, if_false]
  split
  · have hph : estimate_user_content_tokens (.parts [placeholderPart])
        = placeholderText.length := by decide
    rw [hph]
    omega
  · have h1 := truncWalkEstimate b.toNat ps 0 (Nat.zero_le _)
    simp only [estimate_user_content_tokens]
    omega

/-- Witness for C1 (amended) at `P = [Text "ab"]`, `b = 1`. -/
theorem c1_truncate_estimate_bound_witness :
    (0 : Int) < 1 ∧
      (estimate_user_content_tokens
        (truncate_user_content (.parts [ContentPart.text ['a', 'b']]) 1) : Int)
        ≤ 1 + truncationOverhead :=
  ⟨by decide, c1_truncate_estimate_bound [ContentPart.text ['a', 'b']] 1 (by decide)⟩

/-! ## Idempotence of truncation (claim C6) -/

theorem truncWalkKeepsAll (m : Nat) :
    ∀ (ps : List ContentPart) (used : Nat),
      used + (ps.map part_charge).sum ≤ m → truncate_walk m used ps = ps := by
  intro ps
  induction ps with
  | nil => intro used _; rfl
  | cons p ps ih =>
    intro used h
    simp only [List.map_cons, List.sum_cons] at h
    unfold truncate_walk
    have hk : used + part_charge p ≤ m := by omega
    simp only [hk, if_true]
    rw [ih (used + part_charge p) (by omega)]

theorem truncatePartsNonempty (ps : List ContentPart) (b : Int) (hb : 0 < b) :
    ∃ qs, truncate_user_content (.parts ps) b = .parts qs ∧ qs ≠ [] := by
  have hble : ¬b ≤ 0 := by omega
  unfold truncate_user_content
  simp only [hble, if_false]
  by_cases hr : (truncate_walk b.toNat 0 ps).isEmpty
  · exact ⟨[placeholderPart], by simp [hr], by simp⟩
  · exact ⟨truncate_walk b.toNat 0 ps, by simp [hr], by
      intro hcon; rw [hcon] at hr; simp at hr⟩

/-- Claim C6 fails as stated: with `P = []` and `b = 1` the first truncation
yields the placeholder part, whose charge exceeds the budget, so the second
truncation cuts into the placeholder and appends the marker. -/
theorem c6_counterexample :
    truncate_user_content (truncate_user_content (.parts ([] : List ContentPart)) 1) 1
      ≠ truncate_user_content (.parts ([] : List ContentPart)) 1 := by decide

/-- C6 (amended): re-truncating an already-truncated result to the same budget
is a no-op whenever the truncated result's walk charge still fits the budget;
in general it is not idempotent, because the appended marker or placeholder can
push the result over the budget. -/
theorem c6_truncate_conditional_idempotent (ps qs : List ContentPart) (b : Int)
    (hb : 0 < b)
    (hr : truncate_user_content (.parts ps) b = .parts qs)
    (hfit : (qs.map part_charge).sum ≤ b.toNat) :
    truncate_user_content (truncate_user_content (.parts ps) b) b
      = truncate_user_content (.parts ps) b := by
  obtain ⟨qs', hq', hne⟩ := truncatePartsNonempty ps b hb
  rw [hq'] at hr ⊢
  cases hr
  have hble : ¬b ≤ 0 := by omega
  have hwalk : truncate_walk b.toNat 0 qs = qs :=
    truncWalkKeepsAll b.toNat qs 0 (by omega)
  show truncate_user_content (.parts qs) b = .parts qs
  unfold truncate_user_content
  simp only [hble, if_false, hwalk]
  have : qs.isEmpty = false := by
    cases qs with
    | nil => exact absurd rfl hne
    | cons a l => rfl
  simp [this]

/-- Witness for C6 (amended) at `P = [Text "hi"]`, `b = 10`. -/
theorem c6_truncate_conditional_idempotent_witness :
    (0 : Int) < 10 ∧
      truncate_user_content (.parts [ContentPart.text ['h', 'i']]) 10
        = .parts [ContentPart.text ['h', 'i']] ∧
      (([ContentPart.text ['h', 'i']].map part_charge).sum ≤ (10 : Int).toNat) ∧
      truncate_user_content
          (truncate_user_content (.parts [ContentPart.text ['h', 'i']]) 10) 10
        = truncate_user_content (.parts [ContentPart.text ['h', 'i']]) 10 :=
  ⟨by decide, by decide, by decide,
    c6_truncate_conditional_idempotent [ContentPart.text ['h', 'i']]
      [ContentPart.text ['h', 'i']] 10 (by decide) (by decide) (by decide)⟩

/-! ## Model invoker with retry on context-length errors
(`_apply_truncation_and_invoke` / `_apply_truncation_and_ainvoke`) -/

/-- `_is_context_length_error`, applied to the exception's message string. -/
def is_context_length_error (msg : List Char) : Bool :=
  let m := lowerList msg
  containsSub "context".data m &&
    (containsSub "length".data m || containsSub "limit".data m ||
      containsSub "exceeded".data m)

/-- The cap computed at the top of each loop iteration: the full budget on
attempt 0, `max(1024, budget // 2 ** attempt)` on retries. -/
def attempt_cap (maxUserTokens : Int) (attempt : Nat) : Int :=
  if attempt = 0 then maxUserTokens
  else imax 1024 (Int.fdiv maxUserTokens (pow2 attempt))

/-- `max_user_tokens` as computed before the loop: the context window minus
the reserve, minus the system-message token count when the model exposes a
message token counter (otherwise no subtraction happens). -/
def max_user_tokens_of (contextWindow reserveTokens : Int) (systemTokens : Option Int) : Int :=
  match systemTokens with
  | some s => contextWindow - reserveTokens - s
  | none => contextWindow - reserveTokens

deriving instance DecidableEq for Except

/-- Result of the invoker: the final reply or error, plus the trace of caps
used, one entry per invocation attempt. -/
structure InvokeOutcome where
  result : Except (List Char) (List Char)
  attemptCaps : List Int
deriving DecidableEq, Repr

/-- The `for attempt in range(max_retries_on_length + 1)` loop: truncate to the
attempt's cap, invoke, return on success; on a context-length error with
attempts remaining, continue; otherwise re-raise.  `rem` is the number of
attempts remaining after this one (`rem = max_retries_on_length - attempt`). -/
def invoke_loop (oracle : Nat → UserContent → Except (List Char) (List Char))
    (full : UserContent) (maxUserTokens : Int) : Nat → Nat → InvokeOutcome
  | attempt, 0 =>
    let cap := attempt_cap maxUserTokens attempt
    match oracle attempt (truncate_user_content full cap) with
    | .ok s => ⟨.ok s, [cap]⟩
    | .error e => ⟨.error e, [cap]⟩
  | attempt, r + 1 =>
    let cap := attempt_cap maxUserTokens attempt
    match oracle attempt (truncate_user_content full cap) with
    | .ok s => ⟨.ok s, [cap]⟩
    | .error e =>
      if is_context_length_error e then
        let o := invoke_loop oracle full maxUserTokens (attempt + 1) r
        ⟨o.result, cap :: o.attemptCaps⟩
      else ⟨.error e, [cap]⟩

/-- `_apply_truncation_and_invoke`, abstracted over the remote model
(`oracle`) and over the pre-loop budget computation. -/
def apply_truncation_and_invoke (oracle : Nat → UserContent → Except (List Char) (List Char))
    (full : UserContent) (maxUserTokens : Int) (maxRetries : Nat) : InvokeOutcome :=
  invoke_loop oracle full maxUserTokens 0 maxRetries

/-- Default of `max_retries_on_length`. -/
def default_max_retries_on_length : Nat := 2

/-- A context-length error message, as a provider would raise it. -/
def ctxErrorMsg : List Char := "context length exceeded".data

theorem invokeLoopAllCtxErrors
    (oracle : Nat → UserContent → Except (List Char) (List Char))
    (full : UserContent) (mtok : Int) (errAt : Nat → List Char)
    (hor : ∀ k c, oracle k c = .error (errAt k))
    (hctx : ∀ k, is_context_length_error (errAt k) = true) :
    ∀ (rem attempt : Nat),
      (invoke_loop oracle full mtok attempt rem).result = .error (errAt (attempt + rem)) ∧
      (invoke_loop oracle full mtok attempt rem).attemptCaps.length = rem + 1 := by
  intro rem
  induction rem with
  | zero =>
    intro attempt
    unfold invoke_loop
    simp only [hor]
    exact ⟨by rw [Nat.add_zero], rfl⟩
  | succ r ih =>
    intro attempt
    unfold invoke_loop
    simp only [hor, hctx, if_true]
    have h1 := ih (attempt + 1)
    refine ⟨?_, ?_⟩
    · show (invoke_loop oracle full mtok (attempt + 1) r).result = _
      rw [h1.1]
      have : attempt + 1 + r = attempt + (r + 1) := by omega
      rw [this]
    · show (invoke_loop oracle full mtok (attempt + 1) r).attemptCaps.length + 1 = r + 1 + 1
      rw [h1.2]

theorem invokeLoopStopsOnOtherError
    (oracle : Nat → UserContent → Except (List Char) (List Char))
    (full : UserContent) (mtok : Int) (e : List Char)
    (hnc : is_context_length_error e = false) :
    ∀ (rem i attempt : Nat), i ≤ rem →
      (∀ k c, attempt ≤ k → k < attempt + i →
        ∃ ek, oracle k c = .error ek ∧ is_context_length_error ek = true) →
      (∀ c, oracle (attempt + i) c = .error e) →
      (invoke_loop oracle full mtok attempt rem).result = .error e ∧
      (invoke_loop oracle full mtok attempt rem).attemptCaps.length = i + 1 := by
  intro rem
  induction rem with
  | zero =>
    intro i attempt hi _ hj
    have hi0 : i = 0 := by omega
    subst hi0
    have hj2 : ∀ c, oracle attempt c = Except.error e := by
      intro c; have := hj c; rwa [Nat.add_zero] at this
    unfold invoke_loop
    simp only [hj2]
    exact ⟨by trivial, by trivial⟩
  | succ r ih =>
    intro i attempt hi hpre hj
    cases i with
    | zero =>
      have hj2 : ∀ c, oracle attempt c = Except.error e := by
        intro c; have := hj c; rwa [Nat.add_zero] at this
      unfold invoke_loop
      simp only [hj2, hnc, Bool.false_eq_true, if_false]
      exact ⟨by trivial, by trivial⟩
    | succ i' =>
      unfold invoke_loop
      obtain ⟨ek, hek, hctxk⟩ :=
        hpre attempt (truncate_user_content full (attempt_cap mtok attempt))
          (le_refl _) (by omega)
      simp only [hek, hctxk, if_true]
      have h1 := ih i' (attempt + 1) (by omega)
        (fun k c hk1 hk2 => hpre k c (by omega) (by omega))
        (fun c => by
          have : attempt + 1 + i' = attempt + (i' + 1) := by omega
          rw [this]; exact hj c)
      refine ⟨h1.1, ?_⟩
      show (invoke_loop oracle full mtok (attempt + 1) r).attemptCaps.length + 1 = i' + 1 + 1
      rw [h1.2]

/-- C2: if every invocation attempt raises a context-length error, the invoker
makes exactly `maxRetries + 1` attempts and then fails with the last
underlying error; and an error not classified as context-length-exceeded is
never retried: the loop stops right at the attempt that raised it, re-raising
that error. -/
theorem c2_retry_bound_and_no_other_retry :
    (∀ (oracle : Nat → UserContent → Except (List Char) (List Char))
       (full : UserContent) (mtok : Int) (mr : Nat) (errAt : Nat → List Char),
       (∀ k c, oracle k c = .error (errAt k)) →
       (∀ k, is_context_length_error (errAt k) = true) →
       (apply_truncation_and_invoke oracle full mtok mr).attemptCaps.length = mr + 1 ∧
       (apply_truncation_and_invoke oracle full mtok mr).result = .error (errAt mr)) ∧
    (∀ (oracle : Nat → UserContent → Except (List Char) (List Char))
       (full : UserContent) (mtok : Int) (mr j : Nat) (e : List Char),
       j ≤ mr →
       (∀ k c, k < j →
         ∃ ek, oracle k c = .error ek ∧ is_context_length_error ek = true) →
       (∀ c, oracle j c = .error e) →
       is_context_length_error e = false →
       (apply_truncation_and_invoke oracle full mtok mr).attemptCaps.length = j + 1 ∧
       (apply_truncation_and_invoke oracle full mtok mr).result = .error e) := by
  constructor
  · intro oracle full mtok mr errAt hor hctx
    have h := invokeLoopAllCtxErrors oracle full mtok errAt hor hctx mr 0
    exact ⟨h.2, by rw [show (0 + mr) = mr by omega] at h; exact h.1⟩
  · intro oracle full mtok mr j e hj hpre hje hnc
    have h := invokeLoopStopsOnOtherError oracle full mtok e hnc mr j 0 hj
      (fun k c hk1 hk2 => hpre k c (by omega))
      (fun c => by rw [show (0 + j) = j by omega]; exact hje c)
    exact ⟨h.2, h.1⟩

/-- Witness for C2 at the default `max_retries_on_length = 2`: an oracle that
always raises a context-length error is invoked exactly 3 times. -/
theorem c2_retry_bound_witness :
    (apply_truncation_and_invoke (fun _ _ => .error ctxErrorMsg)
        (.str ['h', 'i']) 1000 default_max_retries_on_length).attemptCaps.length
      = default_max_retries_on_length + 1 ∧
    (apply_truncation_and_invoke (fun _ _ => .error ctxErrorMsg)
        (.str ['h', 'i']) 1000 default_max_retries_on_length).result
      = .error ctxErrorMsg :=
  c2_retry_bound_and_no_other_retry.1 (fun _ _ => .error ctxErrorMsg)
    (.str ['h', 'i']) 1000 default_max_retries_on_length (fun _ => ctxErrorMsg)
    (fun _ _ => rfl)
    (fun _ => show is_context_length_error ctxErrorMsg = true by decide)

/-! ## The budget trace of the invoker (claim C8) -/

theorem invokeLoopCapTrace (oracle : Nat → UserContent → Except (List Char) (List Char))
    (full : UserContent) (mtok : Int) :
    ∀ (rem attempt k : Nat),
      k < (invoke_loop oracle full mtok attempt rem).attemptCaps.length →
      (invoke_loop oracle full mtok attempt rem).attemptCaps.get? k
        = some (attempt_cap mtok (attempt + k)) := by
  intro rem
  induction rem with
  | zero =>
    intro attempt k hk
    unfold invoke_loop at hk ⊢
    cases ho : oracle attempt (truncate_user_content full (attempt_cap mtok attempt)) with
    | ok s =>
      simp only [ho, List.length_cons, List.length_nil] at hk
      have hk0 : k = 0 := by omega
      subst hk0
      simp only [ho, Nat.add_zero]
      rfl
    | error e =>
      simp only [ho, List.length_cons, List.length_nil] at hk
      have hk0 : k = 0 := by omega
      subst hk0
      simp only [ho, Nat.add_zero]
      rfl
  | succ r ih =>
    intro attempt k hk
    unfold invoke_loop at hk ⊢
    cases ho : oracle attempt (truncate_user_content full (attempt_cap mtok attempt)) with
    | ok s =>
      simp only [ho, List.length_cons, List.length_nil] at hk
      have hk0 : k = 0 := by omega
      subst hk0
      simp only [ho, Nat.add_zero]
      rfl
    | error e =>
      cases hce : is_context_length_error e with
      | true =>
        simp only [ho, hce, if_true] at hk ⊢
        cases k with
        | zero =>
          simp only [Nat.add_zero]
          rfl
        | succ j =>
          simp only [List.length_cons] at hk
          have h1 := ih (attempt + 1) j (by omega)
          simp only [List.get?_cons_succ]
          rw [h1]
          have : attempt + 1 + j = attempt + (j + 1) := by omega
          rw [this]
      | false =>
        simp only [ho, hce, Bool.false_eq_true, if_false, List.length_cons,
          List.length_nil] at hk ⊢
        have hk0 : k = 0 := by omega
        subst hk0
        simp only [Nat.add_zero]
        rfl

/-- Claim C8 fails as stated: when `contextWindow - reserveTokens - systemTokens`
is negative, attempt 0 uses that negative budget unchanged, with no
non-negativity floor. -/
theorem c8_counterexample :
    ((apply_truncation_and_invoke (fun _ _ => .error ctxErrorMsg) (.str ['h', 'i'])
        (max_user_tokens_of 128000 200000 (some 10)) 2).attemptCaps.get? 0
      = some (-72010)) ∧ ((-72010 : Int) < 0) := by decide

/-- C8 (amended): with a system-message token count available, attempt 0's
budget is exactly `contextWindow - reserveTokens - systemTokens` (no floor, so
it may be zero or negative, in which case truncation emits the placeholder);
each retry `k ≥ 1` uses `max(1024, budget0 // 2 ^ k)`. -/
theorem c8_attempt_budgets (oracle : Nat → UserContent → Except (List Char) (List Char))
    (full : UserContent) (w r s : Int) (mr k : Nat)
    (hk : k < (apply_truncation_and_invoke oracle full
        (max_user_tokens_of w r (some s)) mr).attemptCaps.length) :
    (apply_truncation_and_invoke oracle full
        (max_user_tokens_of w r (some s)) mr).attemptCaps.get? k
      = some (if k = 0 then w - r - s
              else imax 1024 (Int.fdiv (w - r - s) (pow2 k))) := by
  unfold apply_truncation_and_invoke at hk ⊢
  have h := invokeLoopCapTrace oracle full (max_user_tokens_of w r (some s)) mr 0 k hk
  rw [h]
  have hz : 0 + k = k := by omega
  rw [hz]
  rfl

/-- Witness for C8 (amended): with window 128000, reserve 4096, system tokens
100 and an always-overflowing oracle, retry 1 uses `max(1024, 123804 // 2)`. -/
theorem c8_attempt_budgets_witness :
    (1 < (apply_truncation_and_invoke (fun _ _ => .error ctxErrorMsg) (.str ['h', 'i'])
        (max_user_tokens_of 128000 4096 (some 100)) 2).attemptCaps.length) ∧
    ((apply_truncation_and_invoke (fun _ _ => .error ctxErrorMsg) (.str ['h', 'i'])
        (max_user_tokens_of 128000 4096 (some 100)) 2).attemptCaps.get? 1
      = some (if 1 = 0 then 128000 - 4096 - 100
              else imax 1024 (Int.fdiv (128000 - 4096 - 100) (pow2 1)))) :=
  ⟨by decide, c8_attempt_budgets (fun _ _ => .error ctxErrorMsg) (.str ['h', 'i'])
      128000 4096 100 2 1 (by decide)⟩

/-! ## Request assembly (`_build_user_content`) and the grading pipeline -/

/-- The fixed part of the user-message header before the grading prompt. -/
def headerPre : List Char := "## Grading Instructions\n\n".data

/-- The fixed part of the user-message header after the grading prompt. -/
def headerPost : List Char :=
  "\n\n---\n\n## Student Submission (all files combined)\n\n".data

/-- The assembled header text. -/
def header_text (grading_prompt : List Char) : List Char :=
  headerPre ++ grading_prompt ++ headerPost

/-- `_build_user_content`: a nonempty part list gets the header prepended as a
text part; a string context (or an empty part list, which falls through the
truthiness test) yields header plus stripped string. -/
def build_user_content : UserContent → List Char → UserContent
  | .parts ps, gp =>
    if ps.isEmpty then .str (header_text gp ++ stripChars [])
    else .parts (.text (header_text gp) :: ps)
  | .str t, gp => .str (header_text gp ++ stripChars t)

/-- `grade_assignment` / `grade_assignment_async`, abstracted over the LLM
oracle and the budget computed from the resolved model profile. -/
def grade_assignment (oracle : Nat → UserContent → Except (List Char) (List Char))
    (context : UserContent) (grading_prompt : List Char)
    (maxUserTokens : Int) (maxRetries : Nat) : InvokeOutcome :=
  apply_truncation_and_invoke oracle (build_user_content context grading_prompt)
    maxUserTokens maxRetries

/-- Claim C7 fails as stated: an empty parts sequence is not reported as an
empty-submission condition; the assembled header-only request reaches the
invoker (one attempt occurs) and the pipeline can succeed. -/
theorem c7_counterexample :
    ((grade_assignment (fun _ _ => .ok ['F', 'B']) (.parts []) ['P'] 100000 2).result
      = .ok ['F', 'B']) ∧
    ((grade_assignment (fun _ _ => .ok ['F', 'B']) (.parts []) ['P'] 100000 2).attemptCaps
      = [100000]) := by decide

theorem invokeLoopAtLeastOneAttempt (oracle : Nat → UserContent → Except (List Char) (List Char))
    (full : UserContent) (mtok : Int) :
    ∀ (rem attempt : Nat), (invoke_loop oracle full mtok attempt rem).attemptCaps ≠ [] := by
  intro rem
  cases rem with
  | zero =>
    intro attempt
    unfold invoke_loop
    cases ho : oracle attempt (truncate_user_content full (attempt_cap mtok attempt)) with
    | ok s => simp [ho]
    | error e => simp [ho]
  | succ r =>
    intro attempt
    unfold invoke_loop
    cases ho : oracle attempt (truncate_user_content full (attempt_cap mtok attempt)) with
    | ok s => simp [ho]
    | error e =>
      cases hce : is_context_length_error e with
      | true => simp [ho, hce]
      | false => simp [ho, hce]

/-- C7 (amended): for an empty parts sequence the assembler emits the
header-only request (no empty-submission condition exists in the code), and
the submission always reaches the Model Invoker: at least one invocation
attempt occurs. -/
theorem c7_empty_submission_reaches_invoker :
    (∀ gp : List Char, build_user_content (.parts []) gp
        = .str (header_text gp ++ stripChars [])) ∧
    (∀ (oracle : Nat → UserContent → Except (List Char) (List Char))
       (gp : List Char) (mtok : Int) (mr : Nat),
       (grade_assignment oracle (.parts []) gp mtok mr).attemptCaps ≠ []) := by
  constructor
  · intro gp
    rfl
  · intro oracle gp mtok mr
    exact invokeLoopAtLeastOneAttempt oracle _ mtok mr 0

/-! ## A backtracking regular-expression engine for the two patterns of
`src/ai_grader/guardrails.py`, with Python `re` semantics: leftmost match,
greedy quantifiers try longest first, lazy ones shortest first. -/

/-- Items of the regular expressions used by this program: character classes
with counted repetition, literal strings (optionally case-insensitive),
optional non-capturing groups, and capturing groups. -/
inductive RElem where
  | cls (p : Char → Bool) (lo : Nat) (hi : Option Nat) (greedy : Bool)
  | lit (s : List Char) (ci : Bool)
  | grp (idx : Nat) (sub : List RElem)
  | opt (sub : List RElem)

abbrev Caps := List (Nat × List Char)

/-- Length of the maximal run of characters satisfying `p`. -/
def runLen (p : Char → Bool) : List Char → Nat
  | [] => 0
  | c :: cs => if p c then runLen p cs + 1 else 0

/-- Candidate repetition counts in Python backtracking order. -/
def countCandidates (m lo : Nat) (hi : Option Nat) (greedy : Bool) : List Nat :=
  let top := match hi with | some h => min m h | none => m
  if lo ≤ top then
    if greedy then (List.range (top - lo + 1)).map (fun i => top - i)
    else (List.range (top - lo + 1)).map (fun i => lo + i)
  else []

def litMatches (s pre : List Char) (ci : Bool) : Bool :=
  if ci then lowerList pre == lowerList s else pre == s

/-- Backtracking matcher in continuation-passing style.  The fuel only bounds
the nesting depth of the item chain (independent of the input); `100` is far
above the size of the two fixed patterns. -/
def mseq (fuel : Nat) (items : List RElem) (cs : List Char) (caps : Caps)
    (k : Caps → List Char → Option (Caps × List Char)) : Option (Caps × List Char) :=
  match fuel with
  | 0 => none
  | fuel + 1 =>
    match items with
    | [] => k caps cs
    | .cls p lo hi g :: rest =>
      (countCandidates (runLen p cs) lo hi g).findSome?
        (fun n => mseq fuel rest (cs.drop n) caps k)
    | .lit s ci :: rest =>
      if s.length ≤ cs.length ∧ litMatches s (cs.take s.length) ci then
        mseq fuel rest (cs.drop s.length) caps k
      else none
    | .grp i sub :: rest =>
      mseq fuel sub cs caps (fun caps2 cs2 =>
        mseq fuel rest cs2 ((i, cs.take (cs.length - cs2.length)) :: caps2) k)
    | .opt sub :: rest =>
      match mseq fuel sub cs caps (fun caps2 cs2 => mseq fuel rest cs2 caps2 k) with
      | some r => some r
      | none => mseq fuel rest cs caps k

/-- Match the item sequence at the current position; on success return the
captures and the number of characters consumed. -/
def matchHere (items : List RElem) (cs : List Char) : Option (Caps × Nat) :=
  match mseq 100 items cs [] (fun caps rest => some (caps, rest)) with
  | some (caps, rest) => some (caps, cs.length - rest.length)
  | none => none

structure RMatch where
  start : Nat
  caps : Caps
  len : Nat

/-- `re.search`: leftmost match. -/
def reSearchAux (items : List RElem) : List Char → Nat → Option RMatch
  | cs, i =>
    match matchHere items cs with
    | some (caps, len) => some ⟨i, caps, len⟩
    | none =>
      match cs with
      | [] => none
      | _ :: t => reSearchAux items t (i + 1)

def reSearch (items : List RElem) (cs : List Char) : Option RMatch :=
  reSearchAux items cs 0

/-- `re.finditer`: non-overlapping matches, left to right. -/
def reFindAllAux (items : List RElem) : Nat → List Char → Nat → List RMatch
  | 0, _, _ => []
  | fuel + 1, cs, base =>
    match reSearchAux items cs 0 with
    | none => []
    | some m =>
      let adv := m.start + max m.len 1
      ⟨base + m.start, m.caps, m.len⟩ :: reFindAllAux items fuel (cs.drop adv) (base + adv)

def reFindAll (items : List RElem) (cs : List Char) : List RMatch :=
  reFindAllAux items (cs.length + 1) cs 0

/-- `m.group(i)`. -/
def capGet (caps : Caps) (i : Nat) : List Char :=
  match caps.find? (fun p => p.1 == i) with
  | some p => p.2
  | none => []

/-! ## The two regular expressions of `guardrails.py` -/

def isDigitChar (c : Char) : Bool := c.isDigit

/-- `\d+(?:\.\d+)?`. -/
def numElems : List RElem :=
  [.cls isDigitChar 1 none true,
   .opt [.cls (fun c => c = '.') 1 (some 1) true, .cls isDigitChar 1 none true]]

/-- `(\d+(?:\.\d+)?)/(\d+(?:\.\d+)?)`. -/
def scorePattern : List RElem :=
  [.grp 1 numElems, .cls (fun c => c = '/') 1 (some 1) true, .grp 2 numElems]

/-- `.` without DOTALL: anything but a newline. -/
def isDotChar (c : Char) : Bool := c ≠ '\n'

/-- `\s` on the characters occurring in feedback text. -/
def isWsChar (c : Char) : Bool := c.isWhitespace

/-- `(\|\s*.*?Total.*?\|\s*)\*{0,2}\d+(?:\.\d+)?/\d+(?:\.\d+)?\*{0,2}(\s*\|)`
with `re.IGNORECASE`. -/
def totalRowPattern : List RElem :=
  [.grp 1
    [.cls (fun c => c = '|') 1 (some 1) true,
     .cls isWsChar 0 none true,
     .cls isDotChar 0 none false,
     .lit "Total".data true,
     .cls isDotChar 0 none false,
     .cls (fun c => c = '|') 1 (some 1) true,
     .cls isWsChar 0 none true],
   .cls (fun c => c = '*') 0 (some 2) true] ++ numElems ++
  [.cls (fun c => c = '/') 1 (some 1) true] ++ numElems ++
  [.cls (fun c => c = '*') 0 (some 2) true,
   .grp 2 [.cls isWsChar 0 none true, .cls (fun c => c = '|') 1 (some 1) true]]

/-- The `(float(m.group(1)), float(m.group(2)))` extraction. -/
def matchScore (m : RMatch) : Dec × Dec :=
  (parseDec (capGet m.caps 1), parseDec (capGet m.caps 2))

/-- The per-line step of `_parse_total_score`'s loop body: search the score
pattern within one line. -/
def line_score (line : List Char) : Option (Dec × Dec) :=
  (reSearch scorePattern line).map matchScore

/-- `_parse_total_score`: scan lines, skipping lines without the token
"total" and total lines without a `number/number` match; fall back to the
last match anywhere in the text. -/
def parse_total_score (text : List Char) : Option (Dec × Dec) :=
  match (splitLines text).findSome? (fun line =>
      if containsSub "total".data (lowerList line) then line_score line
      else none) with
  | some v => some v
  | none => (reFindAll scorePattern text).getLast?.map matchScore

/-- The `repl` callback of `_replace_total_in_text`: bold style is preserved
when `**` occurs in the prefix group or anywhere in the matched row. -/
def formatNewTotal (g1 mid g2 : List Char) (newScore outOf : Dec) : List Char :=
  if containsSub ['*', '*'] g1 || containsSub ['*', '*'] mid then
    g1 ++ ['*', '*'] ++ fmtFixed1 newScore ++ ['/'] ++ fmtFixed0 outOf ++ ['*', '*'] ++ g2
  else g1 ++ fmtFixed1 newScore ++ ['/'] ++ fmtFixed0 outOf ++ g2

/-- `_replace_total_in_text`: `re.sub(..., count=1)` on the total-row
pattern. -/
def replace_total_in_text (text : List Char) (newScore outOf : Dec) : List Char :=
  match reSearch totalRowPattern text with
  | none => text
  | some m =>
    let pre := text.take m.start
    let mid := (text.drop m.start).take m.len
    let suf := (text.drop m.start).drop m.len
    pre ++ formatNewTotal (capGet m.caps 1) mid (capGet m.caps 2) newScore outOf ++ suf

/-- `apply_grade_guardrails`. -/
def apply_grade_guardrails (feedback : List Char) (min_grade max_grade : Dec)
    (out_of : Option Dec) : List Char :=
  match parse_total_score feedback with
  | none => feedback
  | some (score, parsedOutOf) =>
    if ¬parsedOutOf.isPos then feedback
    else if (match out_of with
             | some o => Dec.blt decTol (Dec.dabs (Dec.sub parsedOutOf o))
             | none => false) then feedback
    else
      let clamped := Dec.dmax min_grade (Dec.dmin max_grade score)
      if ¬Dec.beq clamped score then replace_total_in_text feedback clamped parsedOutOf
      else feedback

/-! ## Score extraction (claim C4) -/

theorem findSomeEqOfFindPos {α β : Type} (g : α → Option β) :
    ∀ (l : List α) (a : α),
      l.find? (fun x => (g x).isSome) = some a → l.findSome? g = g a := by
  intro l
  induction l with
  | nil => intro a h; simp [List.find?] at h
  | cons x xs ih =>
    intro a h
    cases hgx : g x with
    | some b =>
      have h1 : (x :: xs).find? (fun y => (g y).isSome) = some x := by
        cases hpa : (g x).isSome with
        | true => simp [List.find?, hpa]
        | false => rw [hgx] at hpa; simp at hpa
      rw [h1] at h
      cases h
      simp only [List.findSome?_cons, hgx]
    | none =>
      have h1 : (x :: xs).find? (fun y => (g y).isSome)
          = xs.find? (fun y => (g y).isSome) := by
        cases hpa : (g x).isSome with
        | true => rw [hgx] at hpa; simp at hpa
        | false => simp [List.find?, hpa]
      rw [h1] at h
      simp only [List.findSome?_cons, hgx]
      exact ih a h

theorem findSomeNoneOfAllNone {α β : Type} (g : α → Option β) :
    ∀ l : List α, (∀ x ∈ l, g x = none) → l.findSome? g = none := by
  intro l
  induction l with
  | nil => intro _; rfl
  | cons x xs ih =>
    intro h
    have hx := h x (by simp)
    simp only [List.findSome?_cons, hx]
    exact ih (fun y hy => h y (by simp [hy]))

/-- The extraction procedure as the claim states it: the `number/number`
pattern is taken from within the first line containing "total"
(case-insensitively); the global fallback applies only when no line contains
"total" at all. -/
def claimed_parse_total_score (text : List Char) : Option (Dec × Dec) :=
  match (splitLines text).find? (fun line => containsSub "total".data (lowerList line)) with
  | some l => line_score l
  | none => (reFindAll scorePattern text).getLast?.map matchScore

/-- Claim C4 fails as stated: on `"Total\nTotal 3/4"` the first line
containing "total" has no `number/number` pattern, so the claimed procedure
extracts nothing, while the code skips that line and extracts `(3, 4)` from
the second total line. -/
theorem c4_counterexample :
    claimed_parse_total_score ("Total\nTotal 3/4").data = none ∧
    parse_total_score ("Total\nTotal 3/4").data = some (⟨3, 0⟩, ⟨4, 0⟩) := by decide

/-- C4 (amended): extraction takes the `number/number` pattern from the first
line that both contains the token "total" (case-insensitively) and contains
such a pattern — total lines without a pattern are skipped, not final; only
when no total line contains a pattern does it fall back to the last
`number/number` pattern anywhere in the text; and when extraction yields
nothing the guardrail returns the input unchanged. -/
theorem c4_parse_first_matching_total_line :
    (∀ (text : List Char) (l : List Char),
       (splitLines text).find?
           (fun line => containsSub "total".data (lowerList line) && (line_score line).isSome)
         = some l →
       parse_total_score text = line_score l) ∧
    (∀ text : List Char,
       (∀ l ∈ splitLines text,
         containsSub "total".data (lowerList l) = true → line_score l = none) →
       parse_total_score text = (reFindAll scorePattern text).getLast?.map matchScore) ∧
    (∀ text : List Char, parse_total_score text = none →
       apply_grade_guardrails text dec1 dec2 (some dec2) = text) := by
  refine ⟨?_, ?_, ?_⟩
  · intro text l hfind
    have hpred : (fun line => ((fun line =>
        if containsSub "total".data (lowerList line) then line_score line else none) line).isSome)
        = (fun line => containsSub "total".data (lowerList line) && (line_score line).isSome) := by
      funext line
      by_cases h : containsSub "total".data (lowerList line) <;> simp [h]
    have hfind2 : (splitLines text).find? (fun line => ((fun line =>
        if containsSub "total".data (lowerList line) then line_score line else none) line).isSome)
        = some l := by rw [hpred]; exact hfind
    have hsome := findSomeEqOfFindPos _ _ _ hfind2
    have hprop := List.find?_some hfind
    have htot : containsSub "total".data (lowerList l) = true := by
      cases h1 : containsSub "total".data (lowerList l)
      · rw [h1] at hprop; simp at hprop
      · rfl
    have hls : (line_score l).isSome = true := by
      cases h1 : (line_score l).isSome
      · rw [h1] at hprop; simp at hprop
      · rfl
    obtain ⟨v, hv⟩ := Option.isSome_iff_exists.mp hls
    rw [htot] at hsome
    simp only [if_true] at hsome
    unfold parse_total_score
    rw [hsome, hv]
  · intro text hall
    have hnone := findSomeNoneOfAllNone (fun line =>
        if containsSub "total".data (lowerList line) then line_score line else none)
        (splitLines text) (by
          intro x hx
          by_cases h : containsSub "total".data (lowerList x)
          · simp only [h, if_true]
            exact hall x hx h
          · simp [h])
    unfold parse_total_score
    rw [hnone]
  · intro text hp
    unfold apply_grade_guardrails
    rw [hp]

/-- Witness for C4 (amended): on `"Total\nTotal 3/4"` the first total line
with a pattern is the second line, and extraction takes `(3, 4)` from it; on
`"Great work!"` extraction misses and the guardrail is the identity. -/
theorem c4_parse_first_matching_total_line_witness :
    parse_total_score ("Total\nTotal 3/4").data = line_score ("Total 3/4").data ∧
    apply_grade_guardrails ("Great work!").data dec1 dec2 (some dec2)
      = ("Great work!").data :=
  ⟨c4_parse_first_matching_total_line.1 ("Total\nTotal 3/4").data ("Total 3/4").data
      (by decide),
   c4_parse_first_matching_total_line.2.2 ("Great work!").data (by decide)⟩

/-! ## Guardrail clamping and in-place rewriting (claim C5) -/

/-- C5: when the parsed `outOf` matches the scale within 0.01 and the score
is out of bounds, the guardrail rewrites via `_replace_total_in_text`, which
either leaves the text unchanged (no total row matches) or splices exactly the
matched total-row span in place — preserving bold markers and all surrounding
text; and the three concrete examples behave as stated. -/
theorem c5_guardrail_clamps_in_place :
    (∀ (feedback : List Char) (s o : Dec),
       parse_total_score feedback = some (s, o) →
       o.isPos = true →
       Dec.blt decTol (Dec.dabs (Dec.sub o dec2)) = false →
       Dec.beq (Dec.dmax dec1 (Dec.dmin dec2 s)) s = false →
       apply_grade_guardrails feedback dec1 dec2 (some dec2)
         = replace_total_in_text feedback (Dec.dmax dec1 (Dec.dmin dec2 s)) o) ∧
    (∀ (text : List Char) (ns oo : Dec),
       replace_total_in_text text ns oo = text ∨
       ∃ pre mid suf g1 g2 bold,
         text = pre ++ mid ++ suf ∧
         bold = (containsSub ['*', '*'] g1 || containsSub ['*', '*'] mid) ∧
         replace_total_in_text text ns oo
           = pre ++ (g1 ++ (if bold then ['*', '*'] else []) ++ fmtFixed1 ns ++ ['/']
               ++ fmtFixed0 oo ++ (if bold then ['*', '*'] else []) ++ g2) ++ suf) ∧
    (apply_grade_guardrails ("| Total | 0.5/2 |").data dec1 dec2 (some dec2)
       = ("| Total | 1.0/2 |").data) ∧
    (apply_grade_guardrails ("| Total | 3/2 |").data dec1 dec2 (some dec2)
       = ("| Total | 2.0/2 |").data) ∧
    (apply_grade_guardrails ("| Total | 1.5/2 |").data dec1 dec2 (some dec2)
       = ("| Total | 1.5/2 |").data) := by
  refine ⟨?_, ?_, by decide, by decide, by decide⟩
  · intro feedback s o hp hpos htol hneq
    unfold apply_grade_guardrails
    rw [hp]
    simp only [hpos, htol, hneq, not_true, not_false_iff, if_false, if_true,
      Bool.not_true, Bool.false_eq_true]
  · intro text ns oo
    unfold replace_total_in_text
    cases hm : reSearch totalRowPattern text with
    | none => exact Or.inl rfl
    | some m =>
      refine Or.inr ⟨text.take m.start, (text.drop m.start).take m.len,
        (text.drop m.start).drop m.len, capGet m.caps 1, capGet m.caps 2,
        containsSub ['*', '*'] (capGet m.caps 1)
          || containsSub ['*', '*'] ((text.drop m.start).take m.len), ?_, rfl, ?_⟩
      · rw [List.append_assoc, List.take_append_drop, List.take_append_drop]
      · unfold formatNewTotal
        cases hb : containsSub ['*', '*'] (capGet m.caps 1)
          || containsSub ['*', '*'] ((text.drop m.start).take m.len) with
        | true => simp only [hb, if_true]
        | false =>
          simp only [hb, Bool.false_eq_true, if_false, List.nil_append, List.append_nil,
            List.append_assoc]

/-- Witness for C5 at `"| Total | 0.5/2 |"`: the guardrail output is exactly
the in-place rewrite. -/
theorem c5_guardrail_clamps_in_place_witness :
    apply_grade_guardrails ("| Total | 0.5/2 |").data dec1 dec2 (some dec2)
      = replace_total_in_text ("| Total | 0.5/2 |").data
          (Dec.dmax dec1 (Dec.dmin dec2 ⟨5, 1⟩)) ⟨2, 0⟩ :=
  c5_guardrail_clamps_in_place.1 ("| Total | 0.5/2 |").data ⟨5, 1⟩ ⟨2, 0⟩
    (by decide) (by decide) (by decide) (by decide)

/-! ## Context-window lookup (claim C9): `_get_context_window` -/

abbrev KV := List Char × Nat

/-- `_DEFAULT_CONTEXT_WINDOW`. -/
def default_context_window : Nat := 128000

/-- `_CONTEXT_WINDOWS`, in the dict's insertion order. -/
def context_windows : List KV :=
  [("gpt-4o".data, 128000),
   ("gpt-4o-mini".data, 128000),
   ("gpt-4.1".data, 128000),
   ("gpt-4.1-mini".data, 128000),
   ("gpt-5.2".data, 128000),
   ("claude-sonnet-4-20250514".data, 200000),
   ("claude-sonnet-4-5-20250929".data, 200000)]

/-- The loop body of `_get_context_window`: keep the current best key unless
this key occurs in the lowered model name and is strictly longer. -/
def cw_step (lower : List Char) (best : Option KV) (kv : KV) : Option KV :=
  if containsSub kv.1 lower && (match best with
      | none => true
      | some b => decide (b.1.length < kv.1.length)) then some kv else best

/-- `_get_context_window`. -/
def get_context_window : Option (List Char) → Nat
  | none => default_context_window
  | some name =>
    if name.isEmpty then default_context_window
    else
      match context_windows.foldl (cw_step (lowerList name)) none with
      | some kv => kv.2
      | none => default_context_window

theorem cwFoldKeeps (lower : List Char) :
    ∀ (l : List KV) (acc : Option KV) (a : KV), acc = some a →
      ∃ b, l.foldl (cw_step lower) acc = some b ∧ a.1.length ≤ b.1.length := by
  intro l
  induction l with
  | nil => intro acc a ha; exact ⟨a, by simp [ha], le_refl _⟩
  | cons x xs ih =>
    intro acc a ha
    subst ha
    rw [List.foldl_cons]
    by_cases hcond : (containsSub x.1 lower && decide (a.1.length < x.1.length)) = true
    · have hstep : cw_step lower (some a) x = some x := by
        unfold cw_step
        rw [if_pos hcond]
      rw [hstep]
      obtain ⟨b, hb, hlen⟩ := ih (some x) x rfl
      have h2 : a.1.length < x.1.length := by
        have h3 := (Bool.and_eq_true _ _).mp hcond
        simpa using h3.2
      exact ⟨b, hb, by omega⟩
    · have hstep : cw_step lower (some a) x = some a := by
        unfold cw_step
        rw [if_neg hcond]
      rw [hstep]
      exact ih (some a) a rfl

theorem cwFoldReachesMatches (lower : List Char) :
    ∀ (l : List KV) (acc : Option KV) (kv : KV), kv ∈ l →
      containsSub kv.1 lower = true →
      ∃ b, l.foldl (cw_step lower) acc = some b ∧ kv.1.length ≤ b.1.length := by
  intro l
  induction l with
  | nil => intro acc kv hmem; simp at hmem
  | cons x xs ih =>
    intro acc kv hmem hmatch
    rw [List.foldl_cons]
    rcases List.mem_cons.mp hmem with hx | hxs
    · subst hx
      cases acc with
      | none =>
        have hstep : cw_step lower none kv = some kv := by
          unfold cw_step
          rw [if_pos (by simp [hmatch])]
        rw [hstep]
        exact cwFoldKeeps lower xs (some kv) kv rfl
      | some a =>
        by_cases hcond : (containsSub kv.1 lower && decide (a.1.length < kv.1.length)) = true
        · have hstep : cw_step lower (some a) kv = some kv := by
            unfold cw_step
            rw [if_pos hcond]
          rw [hstep]
          exact cwFoldKeeps lower xs (some kv) kv rfl
        · have hlen : kv.1.length ≤ a.1.length := by
            rw [hmatch] at hcond
            simp only [Bool.true_and, decide_eq_true_eq] at hcond
            omega
          have hstep : cw_step lower (some a) kv = some a := by
            unfold cw_step
            rw [if_neg hcond]
          rw [hstep]
          obtain ⟨b, hb, hab⟩ := cwFoldKeeps lower xs (some a) a rfl
          exact ⟨b, hb, by omega⟩
    · exact ih (cw_step lower acc x) kv hxs hmatch

theorem cwFoldResultMatches (lower : List Char) :
    ∀ (l : List KV) (acc : Option KV) (b : KV),
      l.foldl (cw_step lower) acc = some b →
      (b ∈ l ∧ containsSub b.1 lower = true) ∨ acc = some b := by
  intro l
  induction l with
  | nil => intro acc b hb; exact Or.inr (by simpa using hb)
  | cons x xs ih =>
    intro acc b hb
    rw [List.foldl_cons] at hb
    rcases ih (cw_step lower acc x) b hb with h | h
    · exact Or.inl ⟨List.mem_cons_of_mem _ h.1, h.2⟩
    · unfold cw_step at h
      split at h
      next hcond =>
        cases h
        have hm : containsSub x.1 lower = true := ((Bool.and_eq_true _ _).mp hcond).1
        exact Or.inl ⟨List.mem_cons_self _ _, hm⟩
      next hcond =>
        exact Or.inr h

theorem cwFoldNoMatch (lower : List Char) :
    ∀ (l : List KV) (acc : Option KV),
      (∀ kv ∈ l, containsSub kv.1 lower = false) →
      l.foldl (cw_step lower) acc = acc := by
  intro l
  induction l with
  | nil => intro acc _; rfl
  | cons x xs ih =>
    intro acc h
    rw [List.foldl_cons]
    have hx := h x (by simp)
    have hstep : cw_step lower acc x = acc := by
      unfold cw_step
      rw [if_neg (by simp [hx])]
    rw [hstep]
    exact ih acc (fun kv hkv => h kv (by simp [hkv]))

/-- In the concrete table, keys of equal length carry equal window sizes, so
"the longest matching key" determines the returned window even at ties. -/
theorem cwTableLengthDeterminesWindow :
    ∀ x ∈ context_windows, ∀ y ∈ context_windows,
      x.1.length = y.1.length → x.2 = y.2 := by decide

/-- C9: for every requested model name, the lookup returns the window of a
longest table key occurring as a substring of the lowercased name (any
longest matching key gives the same window), and returns the default
128,000 when no key matches or the name is absent. -/
theorem c9_context_window_longest_match (name : List Char) :
    (∀ kv, kv ∈ context_windows → containsSub kv.1 (lowerList name) = true →
       (∀ kv2, kv2 ∈ context_windows → containsSub kv2.1 (lowerList name) = true →
         kv2.1.length ≤ kv.1.length) →
       get_context_window (some name) = kv.2) ∧
    ((∀ kv, kv ∈ context_windows → containsSub kv.1 (lowerList name) = false) →
       get_context_window (some name) = default_context_window) ∧
    get_context_window none = default_context_window := by
  refine ⟨?_, ?_, rfl⟩
  · intro kv hmem hmatch hlongest
    have hne : name.isEmpty = false := by
      cases hn : name.isEmpty
      · rfl
      · exfalso
        have hnil : name = [] := by
          cases name with
          | nil => rfl
          | cons c cs => simp [List.isEmpty] at hn
        have hfalse : ∀ kv2 ∈ context_windows, containsSub kv2.1 (lowerList []) = false := by
          decide
        rw [hnil] at hmatch
        rw [hfalse kv hmem] at hmatch
        exact Bool.false_ne_true hmatch
    obtain ⟨b, hb, hkvb⟩ :=
      cwFoldReachesMatches (lowerList name) context_windows none kv hmem hmatch
    have hres := cwFoldResultMatches (lowerList name) context_windows none b hb
    rcases hres with ⟨hbmem, hbmatch⟩ | hcon
    · have hbkv : b.1.length ≤ kv.1.length := hlongest b hbmem hbmatch
      have hlen : kv.1.length = b.1.length := by omega
      have hwin : kv.2 = b.2 := cwTableLengthDeterminesWindow kv hmem b hbmem hlen
      show (if name.isEmpty = true then default_context_window
            else match context_windows.foldl (cw_step (lowerList name)) none with
              | some kv => kv.2
              | none => default_context_window) = kv.2
      rw [hne]
      simp only [Bool.false_eq_true, if_false]
      rw [hb, hwin]
    · exact absurd hcon (by simp)
  · intro hnone
    show (if name.isEmpty = true then default_context_window
          else match context_windows.foldl (cw_step (lowerList name)) none with
            | some kv => kv.2
            | none => default_context_window) = default_context_window
    cases hn : name.isEmpty
    · have hfold := cwFoldNoMatch (lowerList name) context_windows none hnone
      simp only [Bool.false_eq_true, if_false]
      rw [hfold]
    · simp

/-- Witness for C9: a name containing the key `claude-sonnet-4-20250514` (its
unique longest match) resolves to 200,000 tokens. -/
theorem c9_context_window_longest_match_witness :
    get_context_window (some ("claude-sonnet-4-20250514-v2").data) = 200000 :=
  (c9_context_window_longest_match ("claude-sonnet-4-20250514-v2").data).1
    ("claude-sonnet-4-20250514".data, 200000) (by decide) (by decide) (by decide)

/-! ## Batch orchestration (`src/main.py`, claim C3) -/

/-- `GradingOutcome`: the terminal per-submission record (`_grade_one` writes
either a feedback artifact or an error artifact keyed by the folder name). -/
inductive GradingOutcome where
  | success (feedbackText : List Char)
  | failure (errorMessage : List Char)
deriving DecidableEq, Repr

/-- One submission together with the (deterministic) result its pipeline run
`grade_assignment_async` would produce: a feedback text, or the message of
the exception the pipeline raises. -/
structure SubmissionRun where
  folder_name : List Char
  pipeline : Except (List Char) (List Char)

/-- `_grade_one`: on pipeline success apply the guardrails (bounds 1.0, 2.0,
default scale 2.0) and record the feedback artifact; any pipeline exception is
caught at this task's boundary and recorded as the error artifact. -/
def grade_one (s : SubmissionRun) : List Char × GradingOutcome :=
  match s.pipeline with
  | .ok fb =>
    (s.folder_name, .success (apply_grade_guardrails fb dec1 dec2 (some dec2)))
  | .error e => (s.folder_name, .failure e)

/-- `run_grading`: one `_grade_one` task per submission, joined by
`asyncio.gather`; the mapping from submissions to outcomes is independent
across submissions. -/
def run_grading (subs : List SubmissionRun) : List (List Char × GradingOutcome) :=
  subs.map grade_one

/-- C3: the batch produces exactly one outcome per submission, keyed by its
folder name and in order; a submission whose pipeline raises yields a Failure
outcome with that error, and this never prevents a sibling whose pipeline
succeeds from yielding its Success outcome. -/
theorem c3_one_outcome_per_submission :
    (∀ subs : List SubmissionRun, (run_grading subs).length = subs.length) ∧
    (∀ subs : List SubmissionRun,
       (run_grading subs).map Prod.fst = subs.map SubmissionRun.folder_name) ∧
    (∀ (subs : List SubmissionRun) (i : Nat) (s : SubmissionRun) (fb : List Char),
       subs.get? i = some s → s.pipeline = .ok fb →
       (run_grading subs).get? i
         = some (s.folder_name,
             .success (apply_grade_guardrails fb dec1 dec2 (some dec2)))) ∧
    (∀ (subs : List SubmissionRun) (i : Nat) (s : SubmissionRun) (e : List Char),
       subs.get? i = some s → s.pipeline = .error e →
       (run_grading subs).get? i = some (s.folder_name, .failure e)) := by
  refine ⟨?_, ?_, ?_, ?_⟩
  · intro subs
    exact List.length_map _ _
  · intro subs
    unfold run_grading
    rw [List.map_map]
    apply List.map_congr_left
    intro s _
    cases hs : s.pipeline <;> simp [grade_one, hs, Function.comp]
  · intro subs i s fb hget hp
    unfold run_grading
    rw [List.get?_map, hget]
    simp [grade_one, hp]
  · intro subs i s e hget hp
    unfold run_grading
    rw [List.get?_map, hget]
    simp [grade_one, hp]

/-- Witness for C3 on a two-submission batch where the first pipeline always
raises and the second succeeds: both outcomes are present, keyed by id. -/
theorem c3_one_outcome_per_submission_witness :
    (run_grading [⟨['s', '1'], .error ['b', 'o', 'o', 'm']⟩,
        ⟨['s', '2'], .ok ("| Total | 2/2 |").data⟩]).get? 0
      = some (['s', '1'], .failure ['b', 'o', 'o', 'm']) ∧
    (run_grading [⟨['s', '1'], .error ['b', 'o', 'o', 'm']⟩,
        ⟨['s', '2'], .ok ("| Total | 2/2 |").data⟩]).get? 1
      = some (['s', '2'],
          .success (apply_grade_guardrails ("| Total | 2/2 |").data dec1 dec2 (some dec2))) :=
  ⟨c3_one_outcome_per_submission.2.2.2
      [⟨['s', '1'], .error ['b', 'o', 'o', 'm']⟩,
        ⟨['s', '2'], .ok ("| Total | 2/2 |").data⟩] 0
      ⟨['s', '1'], .error ['b', 'o', 'o', 'm']⟩ ['b', 'o', 'o', 'm'] rfl rfl,
   c3_one_outcome_per_submission.2.2.1
      [⟨['s', '1'], .error ['b', 'o', 'o', 'm']⟩,
        ⟨['s', '2'], .ok ("| Total | 2/2 |").data⟩] 1
      ⟨['s', '2'], .ok ("| Total | 2/2 |").data⟩ ("| Total | 2/2 |").data rfl rfl⟩

/-! ## The statistics analyzer (`src/ai_grader/analyzer.py`, claim C10) -/

/-- `_parse_score` of the analyzer: same scan as the guardrail's parser
(first total line with a `number/number` match, else the last match anywhere),
then — when `clamp_out_of_2` is set and the parsed `out_of` is within 0.01 of
2 — the score is clamped into `[1.0, 2.0]`; a non-positive `out_of` yields
no result. -/
def parse_score (text : List Char) (clampOutOf2 : Bool) : Option (Dec × Dec) :=
  match (match (splitLines text).findSome? (fun line =>
      if containsSub "total".data (lowerList line) then line_score line
      else none) with
    | some v => some v
    | none => (reFindAll scorePattern text).getLast?.map matchScore) with
  | some (s, o) =>
    if o.isPos then
      if clampOutOf2 && Dec.blt (Dec.dabs (Dec.sub o ⟨2, 0⟩)) decTol then
        some (Dec.dmax dec1 (Dec.dmin dec2 s), o)
      else some (s, o)
    else none
  | none => none

/-- The part of `analyze_outputs` that the statistics are computed from:
`scores` collects `(score, out_of, name)` per parseable feedback file (with
clamping on), and `raw_scores` — the inputs of mean, median, min, max,
std-dev and the distribution — projects the scores. -/
structure AnalyzerResult where
  scores : List (Dec × Dec × List Char)
  errorsList : List (List Char)
  rawScores : List Dec

/-- `analyze_outputs`, on the already-read feedback files (name, text) and
error file names. -/
def analyze_outputs (feedbackFiles : List (List Char × List Char))
    (errorFiles : List (List Char)) : AnalyzerResult :=
  let scores := feedbackFiles.filterMap (fun f =>
      (parse_score f.2 true).map (fun so => (so.1, so.2, f.1)))
  { scores := scores
    errorsList := errorFiles
    rawScores := scores.map (fun s => s.1) }

theorem clampWithinBounds (x : Dec) :
    Dec.ble dec1 (Dec.dmax dec1 (Dec.dmin dec2 x)) = true ∧
    Dec.ble (Dec.dmax dec1 (Dec.dmin dec2 x)) dec2 = true := by
  unfold Dec.dmax Dec.dmin
  by_cases hble : Dec.ble dec2 x = true
  · rw [if_pos hble, if_pos (show Dec.blt dec1 dec2 = true by decide)]
    exact ⟨by decide, by decide⟩
  · rw [if_neg hble]
    by_cases hblt : Dec.blt dec1 x = true
    · rw [if_pos hblt]
      unfold Dec.blt at hblt
      unfold Dec.ble at hble ⊢
      simp only [dec1, dec2, decide_eq_true_eq] at hblt hble ⊢
      have h10 : pow10 1 = 10 := rfl
      rw [h10] at hblt hble ⊢
      exact ⟨by omega, by omega⟩
    · rw [if_neg hblt]
      exact ⟨by decide, by decide⟩

theorem parseScoreClamped (text : List Char) (s o : Dec)
    (hraw : parse_score text false = some (s, o))
    (hnear : Dec.blt (Dec.dabs (Dec.sub o ⟨2, 0⟩)) decTol = true) :
    parse_score text true = some (Dec.dmax dec1 (Dec.dmin dec2 s), o) := by
  unfold parse_score at hraw ⊢
  cases hso : (match (splitLines text).findSome? (fun line =>
      if containsSub "total".data (lowerList line) then line_score line
      else none) with
    | some v => some v
    | none => (reFindAll scorePattern text).getLast?.map matchScore) with
  | none =>
    simp only [hso] at hraw
    exact absurd hraw (by simp)
  | some so =>
    obtain ⟨s0, o0⟩ := so
    simp only [hso] at hraw ⊢
    by_cases hpos : o0.isPos = true
    · simp only [hpos, if_true, Bool.false_and, Bool.false_eq_true, if_false] at hraw
      cases hraw
      simp only [hpos, if_true, Bool.true_and, hnear, if_pos rfl]
    · simp only [Bool.not_eq_true] at hpos
      simp only [hpos, Bool.false_eq_true, if_false] at hraw
      exact absurd hraw (by simp)

/-- C10: the analyzer clamps every parsed score into `[1.0, 2.0]` whenever the
parsed `out_of` is within 0.01 of 2 — the clamped value, not the value written
in the file, is what enters the `scores` list that the statistics
(mean, median, min, max, distribution) are computed from. -/
theorem c10_analyzer_clamps_scores :
    (∀ (text : List Char) (s o : Dec),
       parse_score text false = some (s, o) →
       Dec.blt (Dec.dabs (Dec.sub o ⟨2, 0⟩)) decTol = true →
       parse_score text true = some (Dec.dmax dec1 (Dec.dmin dec2 s), o)) ∧
    (∀ (files : List (List Char × List Char)) (errs : List (List Char))
       (s o : Dec) (n : List Char),
       (s, o, n) ∈ (analyze_outputs files errs).scores →
       Dec.blt (Dec.dabs (Dec.sub o ⟨2, 0⟩)) decTol = true →
       Dec.ble dec1 s = true ∧ Dec.ble s dec2 = true) := by
  constructor
  · exact parseScoreClamped
  · intro files errs s o n hmem hnear
    unfold analyze_outputs at hmem
    simp only [List.mem_filterMap] at hmem
    obtain ⟨f, _, hf⟩ := hmem
    cases hps : parse_score f.2 true with
    | none =>
      rw [hps] at hf
      exact absurd hf (by simp)
    | some so =>
      rw [hps] at hf
      simp only [Option.map_some', Option.some_inj] at hf
      obtain ⟨s1, o1⟩ := so
      have hs1 : s1 = s := by
        have h1 := congrArg Prod.fst hf
        simpa using h1
      have ho1 : o1 = o := by
        have h1 := congrArg (fun p => p.2.1) hf
        simpa using h1
      subst hs1
      subst ho1
      unfold parse_score at hps
      cases hso : (match (splitLines f.2).findSome? (fun line =>
          if containsSub "total".data (lowerList line) then line_score line
          else none) with
        | some v => some v
        | none => (reFindAll scorePattern f.2).getLast?.map matchScore) with
      | none =>
        simp only [hso] at hps
        exact absurd hps (by simp)
      | some so0 =>
        obtain ⟨s0, o0⟩ := so0
        simp only [hso] at hps
        by_cases hpos : o0.isPos = true
        · simp only [hpos, if_true, Bool.true_and] at hps
          by_cases hcl : Dec.blt (Dec.dabs (Dec.sub o0 ⟨2, 0⟩)) decTol = true
          · rw [if_pos hcl] at hps
            have hse : Dec.dmax dec1 (Dec.dmin dec2 s0) = s1 := by
              have h1 := congrArg (fun q => (Option.getD q (⟨0, 0⟩, ⟨0, 0⟩)).1) hps
              simpa using h1
            rw [← hse]
            exact clampWithinBounds s0
          · rw [if_neg hcl] at hps
            have hoe : o0 = o1 := by
              have h1 := congrArg (fun q => (Option.getD q (⟨0, 0⟩, ⟨0, 0⟩)).2) hps
              simpa using h1
            rw [hoe] at hcl
            exact absurd hnear hcl
        · simp only [Bool.not_eq_true] at hpos
          simp only [hpos, Bool.false_eq_true, if_false] at hps
          exact absurd hps (by simp)

/-- Witness for C10: a feedback file recording `3/2` enters the statistics as
the clamped `2.0/2`. -/
theorem c10_analyzer_clamps_scores_witness :
    parse_score ("| Total | 3/2 |").data true
      = some (Dec.dmax dec1 (Dec.dmin dec2 ⟨3, 0⟩), ⟨2, 0⟩) :=
  c10_analyzer_clamps_scores.1 ("| Total | 3/2 |").data ⟨3, 0⟩ ⟨2, 0⟩
    (by decide) (by decide)
